import Mathlib

/-!
Shallow embedding of the core of `src/app.py` (class `ShippingOrderGenerator`),
a shipping-order generator: reference-index construction, identity resolution,
quantity computation, supplier classification, merging, warehouse grouping and
the barcode column of the assembled document.

Modelling conventions:
* A pandas cell is a `Value`: either missing (`Value.nan`, anything for which
  `pd.isna` is true) or a string.  Numeric cells are represented by their
  Python `str` image (for example the float `5.0` by `Value.str "5.0"`), which
  is how every code path in the source consumes them (`str`, `float`).
* Python `str.strip` and the whitespace stripping done by `float` are modelled
  by `pyStrip` (ASCII whitespace).  Python `int(float(s))` is modelled by
  `pyIntOfFloat`, covering the sign/digits/fraction forms; the exotic float
  spellings (exponents, `inf`, `nan`, underscores) and non-ASCII digits are
  outside the model, as is binary-float rounding of very large literals.
* Python dicts are association lists in insertion order; `dinsert` models
  `d[k] = v` (update in place, else append), `List.lookup` models `d[k]`.
* Python `sorted` is a stable sort, modelled by `List.insertionSort` (stable
  sorts agree extensionally).
-/

namespace ShippingOrder

/-- A spreadsheet cell value: missing (NaN) or a string.  Numeric cells are
represented by their Python string image. -/
inductive Value where
  | nan : Value
  | str : String → Value
deriving DecidableEq

/-- Python str() of a cell value, as used in f-strings: NaN prints as "nan". -/
def pyStr : Value → String
  | Value.nan => "nan"
  | Value.str s => s

/-- Models pd.isna on a cell value. -/
def isna : Value → Bool
  | Value.nan => true
  | Value.str _ => false

/-- Python whitespace characters recognised by str.strip and float(). -/
def isPyWs (c : Char) : Bool :=
  c = ' ' || c = Char.ofNat 9 || c = Char.ofNat 10 || c = Char.ofNat 13 ||
  c = Char.ofNat 11 || c = Char.ofNat 12

/-- Strip leading and trailing whitespace from a character list. -/
def stripWs (cs : List Char) : List Char :=
  ((cs.dropWhile isPyWs).reverse.dropWhile isPyWs).reverse

/-- Models Python str.strip(). -/
def pyStrip (s : String) : String :=
  String.mk (stripWs s.data)

/-- Models ShippingOrderGenerator._safe_str: empty for NaN, else str(value).strip(). -/
def safeStr (v : Value) : String :=
  match v with
  | Value.nan => ""
  | Value.str s => pyStrip s

/-- Numeric value of a list of decimal digit characters (most significant first),
as computed by Python int() on a digit string. -/
def digitsToNat (ds : List Char) : Nat :=
  ds.foldl (fun n c => 10 * n + (c.toNat - 48)) 0

/-- Parse an unsigned Python float literal of the form digits, digits.digits,
digits. or .digits, returning its truncation to a natural number.  Exponent,
infinity and NaN spellings are outside the model. -/
def parseUnsigned (cs : List Char) : Option Nat :=
  let intPart := cs.takeWhile Char.isDigit
  let rest := cs.drop intPart.length
  match rest with
  | [] => if intPart.isEmpty then none else some (digitsToNat intPart)
  | c :: frac =>
    if c = '.' && frac.all Char.isDigit && !(intPart.isEmpty && frac.isEmpty) then
      some (digitsToNat intPart)
    else
      none

/-- Models Python int(float(s)): strip whitespace, optional sign, decimal
literal, truncated toward zero.  Returns none where Python would raise. -/
def pyIntOfFloat (s : String) : Option Int :=
  if (stripWs s.data).head? = some '+' then
    (parseUnsigned (stripWs s.data).tail).map (fun n => Int.ofNat n)
  else if (stripWs s.data).head? = some '-' then
    (parseUnsigned (stripWs s.data).tail).map (fun n => -(Int.ofNat n))
  else
    (parseUnsigned (stripWs s.data)).map (fun n => Int.ofNat n)

/-- Decimal digit character for a digit below ten. -/
def digitChar (d : Nat) : Char :=
  Char.ofNat (48 + d)

/-- Fueled decimal print of a natural number (most significant digit first). -/
def natDigitsAux : Nat → Nat → List Char
  | 0, _ => []
  | fuel + 1, n =>
    if n < 10 then [digitChar n]
    else natDigitsAux fuel (n / 10) ++ [digitChar (n % 10)]

/-- Decimal digit characters of a natural number, as printed by Python str(). -/
def natDigits (n : Nat) : List Char :=
  natDigitsAux (n + 1) n

/-- Models Python str() of an int. -/
def intStr (i : Int) : String :=
  if i < 0 then String.mk ('-' :: natDigits (-i).toNat)
  else String.mk (natDigits i.toNat)

/-- Models the numeric normalisation str(int(float(s))) applied to product ids
in _build_product_id_index and _get_row_by_product_id. -/
def pyNormalize (s : String) : Option String :=
  (pyIntOfFloat s).map intStr

/-- Models ShippingOrderGenerator._safe_int with its default argument:
default for NaN and for values Python int(float(.)) rejects. -/
def safeInt (v : Value) (default : Int) : Int :=
  match v with
  | Value.nan => default
  | Value.str s => (pyIntOfFloat s).getD default

/-- Is the character list a a prefix of b (character lists). -/
def charsPre : List Char → List Char → Bool
  | [], _ => true
  | _ :: _, [] => false
  | a :: as, b :: bs => a = b && charsPre as bs

/-- Is the first character list a contiguous sublist of the second. -/
def charsSub (n : List Char) (hay : List Char) : Bool :=
  charsPre n hay ||
    match hay with
    | [] => false
    | _ :: t => charsSub n t

/-- Models the Python expression a in b for strings (substring containment);
the empty string is contained in every string. -/
def isSubstr (a b : String) : Bool :=
  charsSub a.data b.data

/-- Models d[k] = v on a Python dict held as an association list in insertion
order: replace the binding in place if the key is present, else append. -/
def dinsert (k : String) (v : α) : List (String × α) → List (String × α)
  | [] => [(k, v)]
  | (k₂, v₂) :: rest =>
    if k₂ = k then (k, v) :: rest else (k₂, v₂) :: dinsert k v rest

/-- One row of a reference table, as a list of cells. -/
def Row := List Value
deriving instance DecidableEq for Row

/-- Models row.iloc[i].  The source never indexes an identified column out of
range on a rectangular table; out-of-range access is modelled as a missing
cell. -/
def iloc (r : Row) (i : Nat) : Value :=
  List.getD r i Value.nan

/-- The product-id column index: col_mapping.get(key, 1) with key 货品id. -/
def productIdCol (cm : List (String × Nat)) : Nat :=
  (cm.lookup "货品id").getD 1

/-- The trimmed product-id string of a reference row, when the row is long
enough and the cell is not missing — the guard of _build_product_id_index. -/
def rowPid (cm : List (String × Nat)) (r : Row) : Option String :=
  if r.length > productIdCol cm && !(isna (iloc r (productIdCol cm))) then
    some (safeStr (iloc r (productIdCol cm)))
  else
    none

/-- One step of _build_product_id_index: store the row under its normalised id
when the id parses, then always under the raw trimmed id. -/
def indexRow (cm : List (String × Nat)) (idx : List (String × Row)) (r : Row) :
    List (String × Row) :=
  match rowPid cm r with
  | none => idx
  | some pid =>
    let idx₂ :=
      match pyNormalize pid with
      | some nid => dinsert nid r idx
      | none => idx
    dinsert pid r idx₂

/-- Models ShippingOrderGenerator._build_product_id_index over the rows of the
product-id reference table. -/
def buildProductIdIndex (cm : List (String × Nat)) (rows : List Row) :
    List (String × Row) :=
  rows.foldl (indexRow cm) []

/-- Models ShippingOrderGenerator._get_row_by_product_id: trim, reject the
empty id, look up the raw string and then the numeric-normalised form. -/
def getRowByProductId (idx : List (String × Row)) (productId : Value) :
    Option Row :=
  let pidStr := safeStr productId
  if pidStr = "" then none
  else
    match idx.lookup pidStr with
    | some r => some r
    | none =>
      match pyNormalize pidStr with
      | some nid => idx.lookup nid
      | none => none

/-- Models ShippingOrderGenerator._get_multiplier_from_sku: the regular
expression -(\d+)[Xx]$ anchored at the end of the SKU, returning the digit
group as an integer. -/
def getMultiplierFromSku (s : String) : Option Nat :=
  match s.data.reverse with
  | [] => none
  | c :: rest =>
    if c = 'X' || c = 'x' then
      let revDigits := rest.takeWhile Char.isDigit
      match rest.drop revDigits.length with
      | '-' :: _ =>
        if revDigits.isEmpty then none
        else some (digitsToNat revDigits.reverse)
      | _ => none
    else none

/-- The unit-quantity branch of calculate_total_quantity: when the product id
is nonempty, a 单套个数 column was recognised, the id resolves and the unit
quantity is positive, the result is sets times the unit quantity. -/
def tableQuantity (cm : List (String × Nat)) (idx : List (String × Row))
    (productId : Value) (setsInt : Int) : Option Int :=
  if safeStr productId ≠ "" then
    match cm.lookup "单套个数" with
    | none => none
    | some uqCol =>
      match getRowByProductId idx productId with
      | none => none
      | some row =>
        let uq := safeInt (iloc row uqCol) 0
        if 0 < uq then some (setsInt * uq) else none
  else none

/-- The SKU string used for the multiplier fallback: the trimmed sku, or,
when that is empty, a 货品编码 column was recognised and the product id
resolves, the SKU code from the reference record. -/
def effectiveSku (cm : List (String × Nat)) (idx : List (String × Row))
    (sku productId : Value) : String :=
  let skuStr := safeStr sku
  if skuStr = "" && safeStr productId ≠ "" then
    match cm.lookup "货品编码" with
    | none => skuStr
    | some skuCol =>
      match getRowByProductId idx productId with
      | none => skuStr
      | some row => safeStr (iloc row skuCol)
  else skuStr

/-- Models ShippingOrderGenerator.calculate_total_quantity: zero for
non-positive set counts, then the unit-quantity table lookup, then the
-<digits>X multiplier suffix (a zero multiplier is falsy in Python and is
skipped), and finally the set count itself. -/
def calculateTotalQuantity (cm : List (String × Nat))
    (idx : List (String × Row)) (sku sets productId : Value) : Int :=
  let setsInt := safeInt sets 0
  if setsInt ≤ 0 then 0
  else
    match tableQuantity cm idx productId setsInt with
    | some q => q
    | none =>
      let skuStr := effectiveSku cm idx sku productId
      if skuStr ≠ "" then
        match getMultiplierFromSku skuStr with
        | some m => if m ≠ 0 then setsInt * Int.ofNat m else setsInt
        | none => setsInt
      else setsInt

/-- Detects a supplier header cell in _build_supplier_cache: a CJK character
in the U+4E00 to U+9FFF block, or the literal substrings 供应商 or 厂. -/
def isSupplierHeader (s : String) : Bool :=
  s.data.any (fun c => 0x4e00 ≤ c.toNat && c.toNat ≤ 0x9fff) ||
    isSubstr "供应商" s || isSubstr "厂" s

/-- One cell step of _build_supplier_cache: non-missing cells either switch
the current supplier (header cells) or are registered as SKU tokens of the
current supplier with found = true. -/
def supplierCell (st : String × List (String × String × Bool)) (cell : Value) :
    String × List (String × String × Bool) :=
  match cell with
  | Value.nan => st
  | Value.str raw =>
    let s := pyStrip raw
    if isSupplierHeader s then (s, st.2)
    else (st.1, dinsert s (st.1, true) st.2)

/-- Models ShippingOrderGenerator._build_supplier_cache: scan the grouping
table row by row, cell by cell, starting from the default supplier. -/
def buildSupplierCache (table : List (List Value)) :
    List (String × String × Bool) :=
  (table.foldl (fun st row => row.foldl supplierCell st) ("其他供应商", [])).2

/-- Models ShippingOrderGenerator.get_supplier_group: empty prefixes go to
the default supplier before any lookup; then exact dict lookup; then the
first cache entry in iteration order related to the prefix by substring
containment in either direction; then the default. -/
def getSupplierGroup (cache : List (String × String × Bool)) (pfx : String) :
    String × Bool :=
  if pfx = "" then ("其他供应商", false)
  else
    match cache.lookup pfx with
    | some v => v
    | none =>
      match cache.find? (fun e => isSubstr pfx e.1 || isSubstr e.1 pfx) with
      | some e => e.2
      | none => ("其他供应商", false)

/-- Models ShippingOrderGenerator.get_product_name: empty prefixes yield the
empty string; otherwise scan the name table for the first row of length at
least two whose non-missing first cell contains the prefix, returning its
second cell (or the prefix when that trims to empty); on no match return the
prefix. -/
def getProductName (table : List Row) (pfx : String) : String :=
  if pfx = "" then ""
  else
    match table.find? (fun row =>
        decide (row.length ≥ 2) && !(isna (iloc row 0)) &&
        isSubstr pfx (pyStr (iloc row 0))) with
    | some row =>
      let v := safeStr (iloc row 1)
      if v = "" then pfx else v
    | none => pfx

/-- Models ShippingOrderGenerator.find_image_data over the image cache (keyed
by lower-cased filename stem): empty prefixes yield no image; then exact
lookup of the lower-cased prefix; then the first cache entry related to it by
substring containment in either direction. -/
def findImageData (cache : List (String × List Nat)) (pfx : String) :
    Option (List Nat) :=
  if pfx = "" then none
  else
    let lower := pfx.toLower
    match cache.lookup lower with
    | some d => some d
    | none =>
      (cache.find? (fun e => isSubstr lower e.1 || isSubstr e.1 lower)).map
        (fun e => e.2)

/-- One resolved order line, mirroring the order_data dict built by
process_order_data.  Byte payloads are lists of byte values. -/
structure OrderLine where
  sku : Value
  name : String
  imageData : Option (List Nat)
  skuPfx : String
  detail : String
  sets : Int
  total : Int
  productId : Value
  address : Value
  warehouse : Value
  seq : Nat
  barcodeData : Option (List Nat)
  barcodeFilename : Option String
deriving DecidableEq

/-- The composite grouping key of merge_orders: the Python f-string
interpolation of the warehouse cell and the product-id cell joined by an
underscore. -/
def mergeKey (o : OrderLine) : String :=
  pyStr o.warehouse ++ "_" ++ pyStr o.productId

/-- The in-place accumulation of merge_orders: add the set count and total
quantity of a later line into the first-seen line for its key. -/
def bump (e o : OrderLine) : OrderLine :=
  { e with sets := e.sets + o.sets, total := e.total + o.total }

/-- One step of the merge_orders loop on the insertion-ordered dict of merged
lines: bump the existing binding for the key, or append a fresh copy. -/
def addOrder : List (String × OrderLine) → OrderLine → List (String × OrderLine)
  | [], o => [(mergeKey o, o)]
  | (k, e) :: rest, o =>
    if k = mergeKey o then (k, bump e o) :: rest
    else (k, e) :: addOrder rest o

/-- Models the Python sorted(orders, key=lambda x: x[原始顺序]) stable sort. -/
def sortByIdx (l : List OrderLine) : List OrderLine :=
  l.insertionSort (fun a b => a.seq ≤ b.seq)

/-- Models ShippingOrderGenerator.merge_orders: iterate the lines in order of
original sequence index, merge same-key lines into the first-seen copy, and
sort the dict values by original sequence index. -/
def mergeOrders (orders : List OrderLine) : List OrderLine :=
  (((sortByIdx orders).foldl addOrder []).map Prod.snd).insertionSort
    (fun a b => a.seq ≤ b.seq)

/-- Sum of the set counts of a list of lines. -/
def sumSets (l : List OrderLine) : Int :=
  (l.map (fun o => o.sets)).sum

/-- Sum of the total quantities of a list of lines. -/
def sumTotal (l : List OrderLine) : Int :=
  (l.map (fun o => o.total)).sum

/-- One warehouse group of group_by_warehouse: name and address snapshot from
the first line seen for the warehouse, the member lines in encounter order,
and the running minimum original sequence index. -/
structure WarehouseGroup where
  warehouseName : Value
  warehouseAddress : Value
  orders : List OrderLine
  minOrder : Nat
deriving DecidableEq

/-- Minimum of a list of sequence indices computed as the source does: start
from the first element and fold with min (zero for the empty list, which the
source never produces). -/
def minSeq : List Nat → Nat
  | [] => 0
  | x :: xs => xs.foldl min x

/-- One step of the group_by_warehouse loop: create the group on first sight
of a warehouse, then append the line and update the minimum. -/
def gbwAdd : List WarehouseGroup → OrderLine → List WarehouseGroup
  | [], o => [⟨o.warehouse, o.address, [o], o.seq⟩]
  | g :: rest, o =>
    if g.warehouseName = o.warehouse then
      { g with orders := g.orders ++ [o], minOrder := min g.minOrder o.seq } :: rest
    else g :: gbwAdd rest o

/-- Models ShippingOrderGenerator.group_by_warehouse: bucket lines by the raw
warehouse cell in encounter order, then sort the groups by their minimum
original sequence index (Python sorted, stable). -/
def groupByWarehouse (orders : List OrderLine) : List WarehouseGroup :=
  (orders.foldl gbwAdd []).insertionSort (fun a b => a.minOrder ≤ b.minOrder)

/-- The data rows of the workbook assembled by create_excel, in emission
order: the lines of each warehouse group in group order. -/
def excelRows (orders : List OrderLine) : List OrderLine :=
  (groupByWarehouse orders).flatMap (fun g => g.orders)

/-- The truthiness test of the barcode branch of create_excel: Python
if order[barcode_data] and order[barcode_filename], where empty bytes and the
empty string are falsy. -/
def barcodeTruthy (o : OrderLine) : Bool :=
  match o.barcodeData, o.barcodeFilename with
  | some d, some f => !d.isEmpty && f ≠ ""
  | _, _ => false

/-- The renamed barcode label of create_excel: the f-string
interpolation of the set count and the original filename joined by a double
hyphen. -/
def barcodeLabel (o : OrderLine) (f : String) : String :=
  intStr o.sets ++ "--" ++ f

/-- The per-row content of the barcode column (column 9) of create_excel. -/
def barcodeCell (o : OrderLine) : String :=
  match o.barcodeData, o.barcodeFilename with
  | some d, some f =>
    if !d.isEmpty && f ≠ "" then barcodeLabel o f else "无条码"
  | _, _ => "无条码"

/-- The (label, bytes) pair a row contributes to the emitted barcode file
list, when its barcode branch is taken. -/
def barcodeEmit (o : OrderLine) : Option (String × List Nat) :=
  match o.barcodeData, o.barcodeFilename with
  | some d, some f =>
    if !d.isEmpty && f ≠ "" then some (barcodeLabel o f, d) else none
  | _, _ => none

/-- The row-filling loop of create_excel restricted to the barcode column:
walk the rows in emission order, writing either the renamed label or the
no-barcode marker, and accumulate the emitted (label, bytes) pairs in row
order. -/
def fillBarcodeRows : List OrderLine → List String × List (String × List Nat)
  | [] => ([], [])
  | o :: rest =>
    let tail := fillBarcodeRows rest
    match barcodeEmit o with
    | some e => (barcodeCell o :: tail.1, e :: tail.2)
    | none => (barcodeCell o :: tail.1, tail.2)

/-- Models the barcode column and barcode file list produced by create_excel
for a list of merged lines: the cells of column 9 of the data rows in order,
and the returned barcode_files list. -/
def createExcelBarcodes (orders : List OrderLine) :
    List String × List (String × List Nat) :=
  fillBarcodeRows (excelRows orders)

/-- The store-column aliases generate_all_orders recognises, in trial order. -/
def storeColumnAliases : List String :=
  ["店铺名称", "店铺", "店铺名", "店名"]

/-- Models the store-column detection of generate_all_orders: the first alias
present among the column names of the main table. -/
def findStoreColumn (cols : List String) : Option String :=
  storeColumnAliases.find? (fun c => cols.contains c)

/-- Python repr of a list of strings, as interpolated into the error message
of generate_all_orders. -/
def pyListReprAux : List String → String
  | [] => ""
  | [c] => "'" ++ c ++ "'"
  | c :: rest => "'" ++ c ++ "'" ++ ", " ++ pyListReprAux rest

/-- Python repr of a list of strings, with brackets. -/
def pyListRepr (cols : List String) : String :=
  "[" ++ pyListReprAux cols ++ "]"

/-- Models the store-column failure boundary of generate_all_orders: when no
alias matches, the run reports the error message naming the available columns
and returns no output (the source calls st.error and returns None); otherwise
the run proceeds with the found store column.  The downstream per-store
generation is file-system output performed by external collaborators and is
abstracted to the chosen column. -/
def generateAllOrders (cols : List String) : Except String String :=
  match findStoreColumn cols with
  | none => Except.error ("❌ 未找到店铺列。可用列: " ++ pyListRepr cols)
  | some c => Except.ok c

/-! ### Helper lemmas -/

theorem getRowByProductId_safeStr_ne {idx : List (String × Row)}
    {productId : Value} {r : Row}
    (h : getRowByProductId idx productId = some r) : safeStr productId ≠ "" := by
  intro he
  rw [getRowByProductId] at h
  simp only [he, if_pos rfl] at h
  cases h

theorem getMultiplierFromSku_empty : getMultiplierFromSku "" = none := by decide

/-! ### C1: the unit-quantity table lookup takes precedence -/

/-- C1: for every sku, sets and productId such that sets parses to a positive
integer, a unit-quantity-per-set column was recognised, productId resolves to
a reference record and that record has positive unit quantity,
calculate_total_quantity returns sets times the unit quantity, regardless of
any multiplier pattern in the sku. -/
theorem calc_total_quantity_table_priority
    (cm : List (String × Nat)) (idx : List (String × Row))
    (sku sets productId : Value) (row : Row) (uqCol : Nat) (s uq : Int)
    (hs : safeInt sets 0 = s) (hpos : 0 < s)
    (hcm : cm.lookup "单套个数" = some uqCol)
    (hrow : getRowByProductId idx productId = some row)
    (huq : safeInt (iloc row uqCol) 0 = uq) (huqpos : 0 < uq) :
    calculateTotalQuantity cm idx sku sets productId = s * uq := by
  have hne : safeStr productId ≠ "" := getRowByProductId_safeStr_ne hrow
  rw [calculateTotalQuantity]
  simp only [hs]
  rw [if_neg (by omega)]
  rw [tableQuantity, if_pos hne, hcm, hrow]
  simp only [huq, if_pos huqpos]

/-- C1 witness: a product id resolving to unit quantity 5 with 4 sets gives
20, even though the sku carries a -6X multiplier pattern. -/
theorem calc_total_quantity_table_priority_witness :
    calculateTotalQuantity [("单套个数", 1)] [("7", [Value.str "x", Value.str "5"])]
      (Value.str "ABC-6X") (Value.str "4") (Value.str "7") = 20 := by
  have h := calc_total_quantity_table_priority
    [("单套个数", 1)] [("7", [Value.str "x", Value.str "5"])]
    (Value.str "ABC-6X") (Value.str "4") (Value.str "7")
    [Value.str "x", Value.str "5"] 1 4 5
    (by decide) (by decide) (by decide) (by decide) (by decide) (by decide)
  rw [h]; decide

/-! ### C5: the -<digits>X multiplier fallback -/

/-- C5 counterexample: a sku ending in -0X matches the multiplier pattern
with extracted multiplier 0, but a zero multiplier is falsy in Python, so the
code returns the set count 3 rather than sets times the multiplier, 0. -/
theorem calc_total_quantity_multiplier_zero_cex :
    calculateTotalQuantity [] [] (Value.str "ABC-0X") (Value.str "3") Value.nan = 3
    ∧ effectiveSku [] [] (Value.str "ABC-0X") Value.nan = "ABC-0X"
    ∧ getMultiplierFromSku "ABC-0X" = some 0
    ∧ (3 : Int) ≠ 3 * Int.ofNat 0 := by decide

/-- C5 amended: when sets parses to a positive integer, the unit-quantity
table lookup does not apply, and the (possibly substituted) sku ends in the
-<digits>X or -<digits>x pattern with a nonzero extracted multiplier,
calculate_total_quantity returns sets times the multiplier (a zero multiplier
is falsy in Python and falls through to returning the set count). -/
theorem calc_total_quantity_multiplier
    (cm : List (String × Nat)) (idx : List (String × Row))
    (sku sets productId : Value) (s : Int) (m : Nat)
    (hs : safeInt sets 0 = s) (hpos : 0 < s)
    (htable : tableQuantity cm idx productId s = none)
    (hmul : getMultiplierFromSku (effectiveSku cm idx sku productId) = some m)
    (hm : m ≠ 0) :
    calculateTotalQuantity cm idx sku sets productId = s * Int.ofNat m := by
  have hskune : effectiveSku cm idx sku productId ≠ "" := by
    intro h
    rw [h, getMultiplierFromSku_empty] at hmul
    cases hmul
  rw [calculateTotalQuantity]
  simp only [hs]
  rw [if_neg (by omega), htable]
  simp only [if_pos hskune, hmul, if_pos hm]

/-- C5 witness: the spec example, sku ABC-6X with 3 sets and an unresolved
product id gives 18. -/
theorem calc_total_quantity_multiplier_witness :
    calculateTotalQuantity [] [] (Value.str "ABC-6X") (Value.str "3") Value.nan = 18 := by
  have h := calc_total_quantity_multiplier [] [] (Value.str "ABC-6X")
    (Value.str "3") Value.nan 3 6 (by decide) (by decide) (by decide)
    (by decide) (by decide)
  rw [h]; decide

/-! ### C9: empty prefixes short-circuit every fuzzy lookup -/

/-- C9: for the empty sku prefix, each fuzzy lookup short-circuits before its
substring-scan fallback: get_supplier_group returns the default supplier with
found false, find_image_data returns no image, and get_product_name returns
the empty string — whatever the caches and the name table hold. -/
theorem empty_pfx_short_circuits
    (cache : List (String × String × Bool)) (img : List (String × List Nat))
    (table : List Row) :
    getSupplierGroup cache "" = ("其他供应商", false)
    ∧ findImageData img "" = none
    ∧ getProductName table "" = "" := by
  refine ⟨?_, ?_, ?_⟩ <;> simp [getSupplierGroup, findImageData, getProductName]

/-! ### Dict model lemmas -/

theorem keys_dinsert (k : String) (v : α) (l : List (String × α)) :
    (dinsert k v l).map Prod.fst
      = if k ∈ l.map Prod.fst then l.map Prod.fst else l.map Prod.fst ++ [k] := by
  induction l with
  | nil => simp [dinsert]
  | cons e rest ih =>
    obtain ⟨k₂, v₂⟩ := e
    by_cases hk : k₂ = k
    · subst hk
      simp [dinsert]
    · simp only [dinsert, if_neg hk, List.map_cons, ih]
      by_cases hmem : k ∈ rest.map Prod.fst
      · simp [hmem, Ne.symm hk]
      · simp [hmem, Ne.symm hk]

theorem nodup_keys_dinsert (k : String) (v : α) (l : List (String × α))
    (h : (l.map Prod.fst).Nodup) : ((dinsert k v l).map Prod.fst).Nodup := by
  rw [keys_dinsert]
  by_cases hmem : k ∈ l.map Prod.fst
  · simpa [hmem] using h
  · simp only [if_neg hmem]
    rw [List.nodup_append]
    exact ⟨h, List.nodup_singleton k, by simpa using hmem⟩

theorem lookup_dinsert_self (k : String) (v : α) (l : List (String × α)) :
    List.lookup k (dinsert k v l) = some v := by
  induction l with
  | nil => simp [dinsert, List.lookup]
  | cons e rest ih =>
    obtain ⟨k₂, v₂⟩ := e
    by_cases hk : k₂ = k
    · subst hk
      simp [dinsert, List.lookup]
    · have hbeq : (k == k₂) = false := by simpa using Ne.symm hk
      simp only [dinsert, if_neg hk, List.lookup_cons, hbeq]
      exact ih

theorem lookup_dinsert_ne (k k₂ : String) (v : α) (l : List (String × α))
    (h : k₂ ≠ k) : List.lookup k₂ (dinsert k v l) = List.lookup k₂ l := by
  have hbeq : (k₂ == k) = false := by simpa using h
  induction l with
  | nil => simp [dinsert, List.lookup_cons, hbeq, List.lookup]
  | cons e rest ih =>
    obtain ⟨k₃, v₃⟩ := e
    by_cases hk : k₃ = k
    · subst hk
      simp [dinsert, List.lookup_cons, hbeq]
    · simp only [dinsert, if_neg hk, List.lookup_cons]
      cases hbeq₂ : k₂ == k₃ with
      | true => rfl
      | false => exact ih

theorem lookup_of_mem_of_nodup {l : List (String × α)} {k : String} {v : α}
    (hnd : (l.map Prod.fst).Nodup) (hmem : (k, v) ∈ l) :
    List.lookup k l = some v := by
  induction l with
  | nil => cases hmem
  | cons e rest ih =>
    obtain ⟨k₂, v₂⟩ := e
    rw [List.map_cons, List.nodup_cons] at hnd
    rcases List.mem_cons.mp hmem with h | h
    · injection h with h1 h2
      subst h1; subst h2
      simp [List.lookup]
    · have hk : k ≠ k₂ := fun he => hnd.1 (he ▸ List.mem_map.mpr ⟨(k, v), h, rfl⟩)
      have hbeq : (k == k₂) = false := by simpa using hk
      simp only [List.lookup_cons, hbeq]
      exact ih hnd.2 h

/-! ### C6: supplier resolution -/

theorem nodup_keys_supplierCell (st : String × List (String × String × Bool))
    (cell : Value) (h : (st.2.map Prod.fst).Nodup) :
    ((supplierCell st cell).2.map Prod.fst).Nodup := by
  cases cell with
  | nan => exact h
  | str raw =>
    rw [supplierCell]
    by_cases hh : isSupplierHeader (pyStrip raw)
    · simpa [hh] using h
    · simpa [hh] using nodup_keys_dinsert _ _ _ h

theorem nodup_keys_supplierRow (row : List Value)
    (st : String × List (String × String × Bool))
    (h : (st.2.map Prod.fst).Nodup) :
    ((row.foldl supplierCell st).2.map Prod.fst).Nodup := by
  induction row generalizing st with
  | nil => exact h
  | cons c rest ih => exact ih _ (nodup_keys_supplierCell st c h)

theorem nodup_keys_buildSupplierCache (table : List (List Value)) :
    ((buildSupplierCache table).map Prod.fst).Nodup := by
  rw [buildSupplierCache]
  generalize hst : (("其他供应商", ([] : List (String × String × Bool))) :
      String × List (String × String × Bool)) = st
  have h : (st.2.map Prod.fst).Nodup := by rw [← hst]; exact List.nodup_nil
  clear hst
  induction table generalizing st with
  | nil => exact h
  | cons row rest ih => exact ih _ (nodup_keys_supplierRow row st h)

/-- C6 counterexample: the supplier table can register the empty string as a
cache key (a whitespace-only cell after a header), yet get_supplier_group on
the empty prefix short-circuits to the default supplier instead of returning
that exact-match entry, so the claim fails for the empty prefix. -/
theorem get_supplier_group_empty_key_cex :
    buildSupplierCache [[Value.str "工厂A"], [Value.str "  "]]
        = [("", ("工厂A", true))]
    ∧ getSupplierGroup [("", ("工厂A", true))] "" = ("其他供应商", false)
    ∧ (("其他供应商", false) : String × Bool) ≠ ("工厂A", true) := by decide

/-- C6 amended: for every nonempty SKU prefix and every built supplier index,
get_supplier_group returns the exact-match entry when the prefix is a key of
the index; otherwise it returns the value of the first entry, in the stable
iteration order of the index, whose key is a substring of the prefix or of
which the prefix is a substring; and when neither succeeds it returns the
default supplier with found false.  (The empty prefix short-circuits to the
default before any lookup, see the counterexample.) -/
theorem get_supplier_group_spec (table : List (List Value)) (pfx : String)
    (hne : pfx ≠ "") :
    (∀ v, (pfx, v) ∈ buildSupplierCache table →
        getSupplierGroup (buildSupplierCache table) pfx = v)
    ∧ ((buildSupplierCache table).lookup pfx = none →
        ∀ e, (buildSupplierCache table).find?
            (fun e => isSubstr pfx e.1 || isSubstr e.1 pfx) = some e →
          getSupplierGroup (buildSupplierCache table) pfx = e.2)
    ∧ ((buildSupplierCache table).lookup pfx = none →
        (buildSupplierCache table).find?
            (fun e => isSubstr pfx e.1 || isSubstr e.1 pfx) = none →
          getSupplierGroup (buildSupplierCache table) pfx = ("其他供应商", false)) := by
  refine ⟨?_, ?_, ?_⟩
  · intro v hmem
    have hl := lookup_of_mem_of_nodup (nodup_keys_buildSupplierCache table) hmem
    rw [getSupplierGroup, if_neg hne, hl]
  · intro hl e hf
    rw [getSupplierGroup, if_neg hne, hl, hf]
  · intro hl hf
    rw [getSupplierGroup, if_neg hne, hl, hf]

/-- C6 witness: on a concrete built index, the three branches of the amended
claim are exercised: an exact hit, a substring fallback hit, and the default. -/
theorem get_supplier_group_spec_witness :
    getSupplierGroup (buildSupplierCache [[Value.str "甲厂"], [Value.str "AB"], [Value.str "CD"]]) "AB"
        = ("甲厂", true)
    ∧ getSupplierGroup (buildSupplierCache [[Value.str "甲厂"], [Value.str "AB"], [Value.str "CD"]]) "CDE"
        = ("甲厂", true)
    ∧ getSupplierGroup (buildSupplierCache [[Value.str "甲厂"], [Value.str "AB"], [Value.str "CD"]]) "ZZ"
        = ("其他供应商", false) := by
  refine ⟨?_, ?_, ?_⟩
  · exact (get_supplier_group_spec [[Value.str "甲厂"], [Value.str "AB"], [Value.str "CD"]]
      "AB" (by decide)).1 ("甲厂", true) (by decide)
  · exact (get_supplier_group_spec [[Value.str "甲厂"], [Value.str "AB"], [Value.str "CD"]]
      "CDE" (by decide)).2.1 (by decide) ("CD", ("甲厂", true)) (by decide)
  · exact (get_supplier_group_spec [[Value.str "甲厂"], [Value.str "AB"], [Value.str "CD"]]
      "ZZ" (by decide)).2.2 (by decide) (by decide)

/-! ### C8: store-column failure boundary -/

theorem charsPre_self_append (n t : List Char) : charsPre n (n ++ t) = true := by
  induction n with
  | nil => rfl
  | cons a as ih => simpa [charsPre] using ih

theorem charsSub_of_charsPre {n h : List Char} (hp : charsPre n h = true) :
    charsSub n h = true := by
  rw [charsSub.eq_def, hp, Bool.true_or]

theorem charsSub_cons {n h : List Char} (c : Char) (hs : charsSub n h = true) :
    charsSub n (c :: h) = true := by
  rw [charsSub.eq_def]
  simp [hs]

theorem charsSub_append_self (c : String) (p q : List Char) :
    charsSub c.data (p ++ (c.data ++ q)) = true := by
  induction p with
  | nil => exact charsSub_of_charsPre (charsPre_self_append _ _)
  | cons a as ih => exact charsSub_cons a ih

theorem mem_pyListReprAux {c : String} {cols : List String} (h : c ∈ cols) :
    ∃ p q, (pyListReprAux cols).data = p ++ (c.data ++ q) := by
  induction cols with
  | nil => cases h
  | cons x rest ih =>
    cases rest with
    | nil =>
      have hx : c = x := by simpa using h
      subst hx
      exact ⟨"'".data, "'".data, by simp [pyListReprAux, String.data_append]⟩
    | cons y ys =>
      rcases List.mem_cons.mp h with hcx | hmem
      · subst hcx
        refine ⟨"'".data, ("'" ++ ", " ++ pyListReprAux (y :: ys)).data, ?_⟩
        simp [pyListReprAux, String.data_append, List.append_assoc]
      · rcases ih hmem with ⟨p, q, hpq⟩
        refine ⟨("'" ++ x ++ "'" ++ ", ").data ++ p, q, ?_⟩
        simp [pyListReprAux, String.data_append, hpq, List.append_assoc]

/-- C8: when none of the recognised store-column aliases occurs among the
column names of the order table, the run produces no generated output and
reports the error message, which names every column actually present. -/
theorem store_column_failure (cols : List String)
    (h : ∀ a ∈ storeColumnAliases, a ∉ cols) :
    generateAllOrders cols
        = Except.error ("❌ 未找到店铺列。可用列: " ++ pyListRepr cols)
    ∧ ∀ c ∈ cols,
        isSubstr c ("❌ 未找到店铺列。可用列: " ++ pyListRepr cols) = true := by
  constructor
  · rw [generateAllOrders]
    have hnone : findStoreColumn cols = none := by
      rw [findStoreColumn, List.find?_eq_none]
      intro a ha
      simpa using h a ha
    rw [hnone]
  · intro c hc
    rcases mem_pyListReprAux hc with ⟨p, q, hpq⟩
    rw [isSubstr]
    have hdecomp : ("❌ 未找到店铺列。可用列: " ++ pyListRepr cols).data
        = (("❌ 未找到店铺列。可用列: " ++ "[").data ++ p) ++ (c.data ++ (q ++ "]".data)) := by
      simp [pyListRepr, String.data_append, hpq, List.append_assoc]
    rw [hdecomp]
    exact charsSub_append_self c _ _

/-- C8 witness: a concrete order table with columns 甲列 and 乙列 and no store
column fails with the message naming both columns. -/
theorem store_column_failure_witness :
    generateAllOrders ["甲列", "乙列"]
        = Except.error "❌ 未找到店铺列。可用列: ['甲列', '乙列']"
    ∧ isSubstr "乙列" "❌ 未找到店铺列。可用列: ['甲列', '乙列']" = true := by
  have h := store_column_failure ["甲列", "乙列"] (by decide)
  have he₀ : ("❌ 未找到店铺列。可用列: " ++ pyListRepr ["甲列", "乙列"])
      = "❌ 未找到店铺列。可用列: ['甲列', '乙列']" := by decide
  constructor
  · rw [h.1, he₀]
  · have h2 := h.2 "乙列" (by decide)
    rw [he₀] at h2
    exact h2

/-! ### Decimal printing round-trips through parsing -/

theorem digitChar_props (d : Nat) (hd : d < 10) :
    (digitChar d).isDigit = true ∧ isPyWs (digitChar d) = false ∧
    digitChar d ≠ '+' ∧ digitChar d ≠ '-' ∧ (digitChar d).toNat = 48 + d := by
  interval_cases d <;> exact ⟨by decide, by decide, by decide, by decide, by decide⟩

theorem natDigitsAux_shape (fuel : Nat) :
    ∀ n, n < fuel → ∀ c ∈ natDigitsAux fuel n, ∃ d, d < 10 ∧ c = digitChar d := by
  induction fuel with
  | zero => intro n hn; omega
  | succ fuel ih =>
    intro n hn c hc
    rw [natDigitsAux] at hc
    by_cases h10 : n < 10
    · rw [if_pos h10] at hc
      exact ⟨n, h10, by simpa using hc⟩
    · rw [if_neg h10] at hc
      rcases List.mem_append.mp hc with h | h
      · exact ih (n / 10) (by omega) c h
      · exact ⟨n % 10, Nat.mod_lt n (by omega), by simpa using h⟩

theorem natDigitsAux_ne_nil (fuel n : Nat) (hn : n < fuel) :
    natDigitsAux fuel n ≠ [] := by
  cases fuel with
  | zero => omega
  | succ fuel =>
    rw [natDigitsAux]
    by_cases h10 : n < 10
    · simp [h10]
    · simp [h10]

theorem digitsToNat_append_singleton (ds : List Char) (c : Char) :
    digitsToNat (ds ++ [c]) = 10 * digitsToNat ds + (c.toNat - 48) := by
  rw [digitsToNat, digitsToNat, List.foldl_append]
  rfl

theorem digitsToNat_natDigitsAux (fuel : Nat) :
    ∀ n, n < fuel → digitsToNat (natDigitsAux fuel n) = n := by
  induction fuel with
  | zero => intro n hn; omega
  | succ fuel ih =>
    intro n hn
    rw [natDigitsAux]
    by_cases h10 : n < 10
    · rw [if_pos h10]
      have := (digitChar_props n h10).2.2.2.2
      simp [digitsToNat, this]
    · rw [if_neg h10, digitsToNat_append_singleton,
        ih (n / 10) (by omega)]
      have := (digitChar_props (n % 10) (Nat.mod_lt n (by omega))).2.2.2.2
      omega

theorem natDigits_shape (n : Nat) :
    ∀ c ∈ natDigits n, ∃ d, d < 10 ∧ c = digitChar d :=
  natDigitsAux_shape (n + 1) n (Nat.lt_succ_self n)

theorem natDigits_ne_nil (n : Nat) : natDigits n ≠ [] :=
  natDigitsAux_ne_nil (n + 1) n (Nat.lt_succ_self n)

theorem digitsToNat_natDigits (n : Nat) : digitsToNat (natDigits n) = n :=
  digitsToNat_natDigitsAux (n + 1) n (Nat.lt_succ_self n)

theorem takeWhile_all_true {p : Char → Bool} :
    ∀ {l : List Char}, (∀ c ∈ l, p c = true) → l.takeWhile p = l := by
  intro l
  induction l with
  | nil => intro _; rfl
  | cons c cs ih =>
    intro h
    rw [List.takeWhile_cons, h c (List.mem_cons_self c cs)]
    simpa using ih (fun x hx => h x (List.mem_cons_of_mem c hx))

theorem parseUnsigned_natDigits (n : Nat) :
    parseUnsigned (natDigits n) = some n := by
  have hall : ∀ c ∈ natDigits n, c.isDigit = true := by
    intro c hc
    rcases natDigits_shape n c hc with ⟨d, hd, rfl⟩
    exact (digitChar_props d hd).1
  rw [parseUnsigned]
  simp only [takeWhile_all_true hall, List.drop_length]
  simp [List.isEmpty_iff, natDigits_ne_nil n, digitsToNat_natDigits n]

theorem stripWs_of_no_ws {l : List Char}
    (h : ∀ c ∈ l, isPyWs c = false) : stripWs l = l := by
  have hdrop : ∀ m : List Char, (∀ c ∈ m, isPyWs c = false) →
      m.dropWhile isPyWs = m := by
    intro m hm
    cases m with
    | nil => rfl
    | cons c cs =>
      rw [List.dropWhile_cons, hm c (List.mem_cons_self c cs)]
      simp
  rw [stripWs, hdrop l h, hdrop l.reverse
    (fun c hc => h c (List.mem_reverse.mp hc)), List.reverse_reverse]

theorem natDigits_no_ws (n : Nat) : ∀ c ∈ natDigits n, isPyWs c = false := by
  intro c hc
  rcases natDigits_shape n c hc with ⟨d, hd, rfl⟩
  exact (digitChar_props d hd).2.1

theorem intStr_data (i : Int) :
    (intStr i).data = if i < 0 then '-' :: natDigits (-i).toNat
      else natDigits i.toNat := by
  rw [intStr]
  by_cases h : i < 0 <;> simp [h]

theorem intStr_no_ws (i : Int) : ∀ c ∈ (intStr i).data, isPyWs c = false := by
  intro c hc
  rw [intStr_data] at hc
  by_cases h : i < 0
  · rw [if_pos h] at hc
    rcases List.mem_cons.mp hc with rfl | hc
    · decide
    · exact natDigits_no_ws _ c hc
  · rw [if_neg h] at hc
    exact natDigits_no_ws _ c hc

theorem intStr_ne_empty (i : Int) : intStr i ≠ "" := by
  intro h
  have : (intStr i).data = [] := by rw [h]
  rw [intStr_data] at this
  by_cases hneg : i < 0
  · rw [if_pos hneg] at this; cases this
  · rw [if_neg hneg] at this; exact natDigits_ne_nil _ this

theorem intStr_data_neg (i : Int) (h : i < 0) :
    (intStr i).data = '-' :: natDigits (-i).toNat := by
  rw [intStr_data, if_pos h]

theorem intStr_data_nonneg (i : Int) (h : ¬i < 0) :
    (intStr i).data = natDigits i.toNat := by
  rw [intStr_data, if_neg h]

/-- Round trip: Python int(float(str(i))) recovers the integer i. -/
theorem pyIntOfFloat_intStr (i : Int) : pyIntOfFloat (intStr i) = some i := by
  by_cases hneg : i < 0
  · rw [pyIntOfFloat, stripWs_of_no_ws (intStr_no_ws i), intStr_data_neg i hneg,
      List.head?_cons, List.tail_cons,
      if_neg (show ¬(some '-' = some '+') from by decide), if_pos rfl,
      parseUnsigned_natDigits]
    simp only [Option.map_some', Option.some.injEq, Int.ofNat_eq_natCast]
    omega
  · rw [pyIntOfFloat, stripWs_of_no_ws (intStr_no_ws i), intStr_data_nonneg i hneg]
    obtain ⟨c, cs, hcons⟩ : ∃ c cs, natDigits i.toNat = c :: cs := by
      cases h : natDigits i.toNat with
      | nil => exact absurd h (natDigits_ne_nil _)
      | cons c cs => exact ⟨c, cs, rfl⟩
    obtain ⟨d, hd, hcd⟩ := natDigits_shape i.toNat c (hcons ▸ List.mem_cons_self c cs)
    subst hcd
    rw [hcons, List.head?_cons]
    have h1 : ¬(some (digitChar d) = some '+') := by
      simpa using (digitChar_props d hd).2.2.1
    have h2 : ¬(some (digitChar d) = some '-') := by
      simpa using (digitChar_props d hd).2.2.2.1
    rw [if_neg h1, if_neg h2, ← hcons, parseUnsigned_natDigits]
    simp only [Option.map_some', Option.some.injEq, Int.ofNat_eq_natCast]
    omega

/-- Round trip: the numeric normalisation is idempotent on Python integer
strings. -/
theorem pyNormalize_intStr (i : Int) : pyNormalize (intStr i) = some (intStr i) := by
  rw [pyNormalize, pyIntOfFloat_intStr]
  rfl

/-! ### C3: product-id lookup and numeric normalisation -/

theorem mem_dinsert {l : List (String × α)} {k : String} {v : α} {e : String × α}
    (h : e ∈ dinsert k v l) : e = (k, v) ∨ e ∈ l := by
  induction l with
  | nil => simpa [dinsert] using h
  | cons e₂ rest ih =>
    obtain ⟨k₂, v₂⟩ := e₂
    by_cases hk : k₂ = k
    · subst hk
      rw [dinsert, if_pos rfl] at h
      rcases List.mem_cons.mp h with h | h
      · exact Or.inl h
      · exact Or.inr (List.mem_cons_of_mem _ h)
    · rw [dinsert, if_neg hk] at h
      rcases List.mem_cons.mp h with h | h
      · exact Or.inr (h ▸ List.mem_cons_self _ _)
      · rcases ih h with h | h
        · exact Or.inl h
        · exact Or.inr (List.mem_cons_of_mem _ h)

theorem mem_of_lookup_some {l : List (String × α)} {k : String} {v : α}
    (h : List.lookup k l = some v) : (k, v) ∈ l := by
  induction l with
  | nil => cases h
  | cons e rest ih =>
    obtain ⟨k₂, v₂⟩ := e
    rw [List.lookup_cons] at h
    cases hbeq : k == k₂ with
    | true =>
      rw [hbeq] at h
      injection h with h
      subst h
      exact (beq_iff_eq.mp hbeq) ▸ List.mem_cons_self _ _
    | false =>
      rw [hbeq] at h
      exact List.mem_cons_of_mem _ (ih h)

theorem mem_indexRow {cm : List (String × Nat)} {idx : List (String × Row)}
    {r : Row} {k : String} {row : Row}
    (h : (k, row) ∈ indexRow cm idx r) :
    (k, row) ∈ idx ∨
      (row = r ∧ ∃ p, rowPid cm r = some p ∧ (k = p ∨ pyNormalize p = some k)) := by
  rw [indexRow] at h
  cases hp : rowPid cm r with
  | none =>
    rw [hp] at h
    exact Or.inl h
  | some pid =>
    rw [hp] at h
    cases hn : pyNormalize pid with
    | none =>
      simp only [hn] at h
      rcases mem_dinsert h with h | h
      · injection h with h1 h2
        exact Or.inr ⟨h2, pid, rfl, Or.inl h1⟩
      · exact Or.inl h
    | some nid =>
      simp only [hn] at h
      rcases mem_dinsert h with h | h
      · injection h with h1 h2
        exact Or.inr ⟨h2, pid, rfl, Or.inl h1⟩
      · rcases mem_dinsert h with h | h
        · injection h with h1 h2
          exact Or.inr ⟨h2, pid, rfl, Or.inr (h1 ▸ hn)⟩
        · exact Or.inl h

theorem mem_foldl_indexRow {cm : List (String × Nat)} :
    ∀ (rows : List Row) (acc : List (String × Row)) (k : String) (row : Row),
    (k, row) ∈ rows.foldl (indexRow cm) acc →
    (k, row) ∈ acc ∨
      (row ∈ rows ∧ ∃ p, rowPid cm row = some p ∧ (k = p ∨ pyNormalize p = some k)) := by
  intro rows
  induction rows with
  | nil => intro acc k row h; exact Or.inl h
  | cons hd tl ih =>
    intro acc k row h
    rcases ih (indexRow cm acc hd) k row h with h | ⟨hmem, hrest⟩
    · rcases mem_indexRow h with h | ⟨rfl, hrest⟩
      · exact Or.inl h
      · exact Or.inr ⟨List.mem_cons_self _ _, hrest⟩
    · exact Or.inr ⟨List.mem_cons_of_mem _ hmem, hrest⟩

theorem mem_buildProductIdIndex {cm : List (String × Nat)} {rows : List Row}
    {k : String} {row : Row}
    (h : (k, row) ∈ buildProductIdIndex cm rows) :
    row ∈ rows ∧ ∃ p, rowPid cm row = some p ∧ (k = p ∨ pyNormalize p = some k) := by
  rcases mem_foldl_indexRow rows [] k row h with h | h
  · cases h
  · exact h

theorem lookup_dinsert_isSome {l : List (String × α)} {k : String}
    (k₂ : String) (v : α) (h : (List.lookup k l).isSome) :
    (List.lookup k (dinsert k₂ v l)).isSome := by
  by_cases he : k = k₂
  · subst he
    rw [lookup_dinsert_self]
    rfl
  · rw [lookup_dinsert_ne k₂ k v l he]
    exact h

theorem lookup_indexRow_isSome {cm : List (String × Nat)}
    {idx : List (String × Row)} {r : Row} {k : String}
    (h : (idx.lookup k).isSome) : ((indexRow cm idx r).lookup k).isSome := by
  rw [indexRow]
  cases hp : rowPid cm r with
  | none => exact h
  | some pid =>
    cases hn : pyNormalize pid with
    | none =>
      simp only [hn]
      exact lookup_dinsert_isSome pid r h
    | some nid =>
      simp only [hn]
      exact lookup_dinsert_isSome pid r (lookup_dinsert_isSome nid r h)

theorem lookup_foldl_indexRow_isSome {cm : List (String × Nat)}
    (rows : List Row) :
    ∀ (acc : List (String × Row)) (k : String), (List.lookup k acc).isSome →
    ((rows.foldl (indexRow cm) acc).lookup k).isSome := by
  induction rows with
  | nil => intro acc k h; exact h
  | cons hd tl ih => intro acc k h; exact ih _ _ (lookup_indexRow_isSome h)

theorem lookup_indexRow_self_norm {cm : List (String × Nat)}
    {idx : List (String × Row)} {r : Row} {p nid : String}
    (hp : rowPid cm r = some p) (hn : pyNormalize p = some nid) :
    ((indexRow cm idx r).lookup nid).isSome := by
  rw [indexRow, hp]
  simp only [hn]
  by_cases he : nid = p
  · subst he
    rw [lookup_dinsert_self]
    rfl
  · rw [lookup_dinsert_ne p nid r _ he, lookup_dinsert_self]
    rfl

theorem lookup_buildIndex_norm_isSome {cm : List (String × Nat)} {r : Row}
    {p nid : String} (hp : rowPid cm r = some p) (hn : pyNormalize p = some nid) :
    ∀ (rows : List Row) (acc : List (String × Row)), r ∈ rows →
    ((rows.foldl (indexRow cm) acc).lookup nid).isSome := by
  intro rows
  induction rows with
  | nil => intro acc h; cases h
  | cons hd tl ih =>
    intro acc hmem
    rcases List.mem_cons.mp hmem with rfl | hmem
    · exact lookup_foldl_indexRow_isSome tl _ nid (lookup_indexRow_self_norm hp hn)
    · exact ih _ hmem

theorem getRow_intStr (idx : List (String × Row)) (i : Int) :
    getRowByProductId idx (Value.str (intStr i)) = idx.lookup (intStr i) := by
  have hs : safeStr (Value.str (intStr i)) = intStr i := by
    rw [safeStr, pyStrip, stripWs_of_no_ws (intStr_no_ws i)]
  simp only [getRowByProductId, hs]
  rw [if_neg (intStr_ne_empty i)]
  cases hl : idx.lookup (intStr i) with
  | some r => rfl
  | none =>
    rw [pyNormalize_intStr]
    exact hl

/-- C3 counterexample: with reference rows whose ids are "123.0" and "123",
both ids parse as numbers and normalise to "123", yet the two lookups return
different records — the raw-string binding for "123.0" survives while the
normalised binding "123" is overwritten by the later row. -/
theorem resolve_product_id_normalized_cex :
    pyIntOfFloat "123.0" = some 123
    ∧ intStr 123 = "123"
    ∧ getRowByProductId
        (buildProductIdIndex []
          [[Value.str "x", Value.str "123.0"], [Value.str "y", Value.str "123"]])
        (Value.str "123.0")
        = some [Value.str "x", Value.str "123.0"]
    ∧ getRowByProductId
        (buildProductIdIndex []
          [[Value.str "x", Value.str "123.0"], [Value.str "y", Value.str "123"]])
        (Value.str "123")
        = some [Value.str "y", Value.str "123"]
    ∧ ([Value.str "x", Value.str "123.0"] : Row) ≠ [Value.str "y", Value.str "123"] := by
  decide

/-- C3 amended: resolveByProductId(id) and resolveByProductId(str(int(float(id))))
agree whenever id parses as a number, PROVIDED no two distinct indexed
reference rows carry product ids with the same numeric normalisation; without
that proviso the two lookups can return different records (see the
counterexample). -/
theorem resolve_product_id_normalized (cm : List (String × Nat)) (rows : List Row)
    (pid : Value) (i : Int)
    (hid : pyIntOfFloat (safeStr pid) = some i)
    (hinj : ∀ r₁ r₂ p₁ p₂ nid, r₁ ∈ rows → r₂ ∈ rows →
        rowPid cm r₁ = some p₁ → rowPid cm r₂ = some p₂ →
        pyNormalize p₁ = some nid → pyNormalize p₂ = some nid → r₁ = r₂) :
    getRowByProductId (buildProductIdIndex cm rows) pid
      = getRowByProductId (buildProductIdIndex cm rows) (Value.str (intStr i)) := by
  have hnorm : pyNormalize (safeStr pid) = some (intStr i) := by
    rw [pyNormalize, hid]
    rfl
  have hne : safeStr pid ≠ "" := by
    intro h
    rw [h, (by decide : pyIntOfFloat "" = (none : Option Int))] at hid
    cases hid
  rw [getRow_intStr]
  simp only [getRowByProductId]
  rw [if_neg hne]
  cases hl : (buildProductIdIndex cm rows).lookup (safeStr pid) with
  | none =>
    rw [hnorm]
  | some r =>
    obtain ⟨hr_rows, p, hp, hkey⟩ := mem_buildProductIdIndex (mem_of_lookup_some hl)
    rcases hkey with hkp | hkn
    · subst hkp
      obtain ⟨r₂, hl₂⟩ := Option.isSome_iff_exists.mp
        (lookup_buildIndex_norm_isSome hp hnorm rows [] hr_rows)
      rw [show List.foldl (indexRow cm) [] rows = buildProductIdIndex cm rows from rfl] at hl₂
      obtain ⟨hr₂_rows, p₂, hp₂, hkey₂⟩ := mem_buildProductIdIndex (mem_of_lookup_some hl₂)
      have hpn₂ : pyNormalize p₂ = some (intStr i) := by
        rcases hkey₂ with hkey₂ | hkey₂
        · rw [← hkey₂]
          exact pyNormalize_intStr i
        · exact hkey₂
      have hrr : r = r₂ :=
        hinj r r₂ (safeStr pid) p₂ (intStr i) hr_rows hr₂_rows hp hp₂ hnorm hpn₂
      show (some r : Option Row) = List.lookup (intStr i) (buildProductIdIndex cm rows)
      rw [hl₂, hrr]
    · rw [pyNormalize] at hkn
      rcases Option.map_eq_some'.mp hkn with ⟨j, hj, hjs⟩
      have hfix : pyNormalize (safeStr pid) = some (safeStr pid) := by
        rw [← hjs]
        exact pyNormalize_intStr j
      have heq : intStr i = safeStr pid := by
        rw [hfix] at hnorm
        injection hnorm with h
        exact h.symm
      show (some r : Option Row) = List.lookup (intStr i) (buildProductIdIndex cm rows)
      rw [heq]
      exact hl.symm

/-- C3 witness: a singleton reference table with id "123.0"; looking up
"123.0" and its normalisation "123" return the same record. -/
theorem resolve_product_id_normalized_witness :
    getRowByProductId (buildProductIdIndex [] [[Value.str "x", Value.str "123.0"]])
        (Value.str "123.0")
      = getRowByProductId (buildProductIdIndex [] [[Value.str "x", Value.str "123.0"]])
        (Value.str (intStr 123)) := by
  refine resolve_product_id_normalized [] [[Value.str "x", Value.str "123.0"]]
    (Value.str "123.0") 123 (by decide) ?_
  intro r₁ r₂ p₁ p₂ nid h₁ h₂ hp₁ hp₂ hn₁ hn₂
  have e₁ : r₁ = [Value.str "x", Value.str "123.0"] := by simpa using h₁
  have e₂ : r₂ = [Value.str "x", Value.str "123.0"] := by simpa using h₂
  rw [e₁, e₂]

/-! ### C2 and C10: merging -/

theorem mergeKey_bump (e o : OrderLine) : mergeKey (bump e o) = mergeKey e := rfl

theorem sumSets_append (l₁ l₂ : List OrderLine) :
    sumSets (l₁ ++ l₂) = sumSets l₁ + sumSets l₂ := by
  simp [sumSets]

theorem sumTotal_append (l₁ l₂ : List OrderLine) :
    sumTotal (l₁ ++ l₂) = sumTotal l₁ + sumTotal l₂ := by
  simp [sumTotal]

theorem sumSets_perm {l₁ l₂ : List OrderLine} (h : l₁.Perm l₂) :
    sumSets l₁ = sumSets l₂ :=
  List.Perm.sum_eq (h.map _)

theorem sumTotal_perm {l₁ l₂ : List OrderLine} (h : l₁.Perm l₂) :
    sumTotal l₁ = sumTotal l₂ :=
  List.Perm.sum_eq (h.map _)

theorem sumSets_addOrder (m : List (String × OrderLine)) (o : OrderLine) :
    sumSets ((addOrder m o).map Prod.snd) = sumSets (m.map Prod.snd) + o.sets := by
  induction m with
  | nil => simp [addOrder, sumSets, bump]
  | cons e₂ rest ih =>
    obtain ⟨k, e⟩ := e₂
    rw [addOrder]
    by_cases hk : k = mergeKey o
    · rw [if_pos hk]
      simp [sumSets, bump]
      omega
    · rw [if_neg hk]
      simp only [List.map_cons, sumSets, List.sum_cons] at *
      omega

theorem sumTotal_addOrder (m : List (String × OrderLine)) (o : OrderLine) :
    sumTotal ((addOrder m o).map Prod.snd) = sumTotal (m.map Prod.snd) + o.total := by
  induction m with
  | nil => simp [addOrder, sumTotal, bump]
  | cons e₂ rest ih =>
    obtain ⟨k, e⟩ := e₂
    rw [addOrder]
    by_cases hk : k = mergeKey o
    · rw [if_pos hk]
      simp [sumTotal, bump]
      omega
    · rw [if_neg hk]
      simp only [List.map_cons, sumTotal, List.sum_cons] at *
      omega

theorem sums_mergeFold (q : List OrderLine) :
    sumSets ((q.foldl addOrder []).map Prod.snd) = sumSets q
    ∧ sumTotal ((q.foldl addOrder []).map Prod.snd) = sumTotal q := by
  induction q using List.reverseRecOn with
  | nil => exact ⟨rfl, rfl⟩
  | append_singleton q o ih =>
    rw [List.foldl_append]
    constructor
    · rw [List.foldl_cons, List.foldl_nil, sumSets_addOrder, ih.1,
        sumSets_append]
      simp [sumSets]
    · rw [List.foldl_cons, List.foldl_nil, sumTotal_addOrder, ih.2,
        sumTotal_append]
      simp [sumTotal]

/-- C10: merging conserves the aggregate quantities: the sums of set counts
and of total quantities over the merged output equal the sums over the
input. -/
theorem merge_orders_conserves (orders : List OrderLine) :
    sumSets (mergeOrders orders) = sumSets orders
    ∧ sumTotal (mergeOrders orders) = sumTotal orders := by
  have hperm₁ := List.perm_insertionSort
    (fun a b : OrderLine => a.seq ≤ b.seq)
    (((sortByIdx orders).foldl addOrder []).map Prod.snd)
  have hperm₂ := List.perm_insertionSort
    (fun a b : OrderLine => a.seq ≤ b.seq) orders
  have hfold := sums_mergeFold (sortByIdx orders)
  constructor
  · rw [mergeOrders, sumSets_perm hperm₁, hfold.1, sortByIdx, sumSets_perm hperm₂]
  · rw [mergeOrders, sumTotal_perm hperm₁, hfold.2, sortByIdx, sumTotal_perm hperm₂]

theorem lookup_addOrder_self (m : List (String × OrderLine)) (o : OrderLine) :
    List.lookup (mergeKey o) (addOrder m o)
      = some (match List.lookup (mergeKey o) m with
              | some e => bump e o
              | none => o) := by
  induction m with
  | nil => simp [addOrder, List.lookup]
  | cons e₂ rest ih =>
    obtain ⟨k, e⟩ := e₂
    rw [addOrder]
    by_cases hk : k = mergeKey o
    · subst hk
      rw [if_pos rfl]
      simp [List.lookup_cons]
    · rw [if_neg hk]
      have hbeq : (mergeKey o == k) = false := by simpa using Ne.symm hk
      simp only [List.lookup_cons, hbeq]
      exact ih

theorem lookup_addOrder_ne (m : List (String × OrderLine)) (o : OrderLine)
    (k : String) (h : k ≠ mergeKey o) :
    List.lookup k (addOrder m o) = List.lookup k m := by
  have hbeq : (k == mergeKey o) = false := by simpa using h
  induction m with
  | nil => simp [addOrder, List.lookup_cons, hbeq, List.lookup]
  | cons e₂ rest ih =>
    obtain ⟨k₂, e⟩ := e₂
    rw [addOrder]
    by_cases hk : k₂ = mergeKey o
    · subst hk
      rw [if_pos rfl]
      simp only [List.lookup_cons, hbeq]
    · rw [if_neg hk]
      simp only [List.lookup_cons]
      cases hbeq₂ : k == k₂ with
      | true => rfl
      | false => exact ih

theorem keys_addOrder (m : List (String × OrderLine)) (o : OrderLine) :
    (addOrder m o).map Prod.fst
      = if mergeKey o ∈ m.map Prod.fst then m.map Prod.fst
        else m.map Prod.fst ++ [mergeKey o] := by
  induction m with
  | nil => simp [addOrder]
  | cons e₂ rest ih =>
    obtain ⟨k, e⟩ := e₂
    rw [addOrder]
    by_cases hk : k = mergeKey o
    · subst hk
      rw [if_pos rfl]
      simp
    · rw [if_neg hk]
      simp only [List.map_cons, ih]
      by_cases hmem : mergeKey o ∈ rest.map Prod.fst
      · simp [hmem, Ne.symm hk]
      · simp [hmem, Ne.symm hk]

theorem nodup_keys_addOrder (m : List (String × OrderLine)) (o : OrderLine)
    (h : (m.map Prod.fst).Nodup) : ((addOrder m o).map Prod.fst).Nodup := by
  rw [keys_addOrder]
  by_cases hmem : mergeKey o ∈ m.map Prod.fst
  · simpa [hmem] using h
  · simp only [if_neg hmem]
    rw [List.nodup_append]
    exact ⟨h, List.nodup_singleton _, by simpa using hmem⟩

theorem nodup_keys_mergeFold (q : List OrderLine) :
    ((q.foldl addOrder []).map Prod.fst).Nodup := by
  induction q using List.reverseRecOn with
  | nil => exact List.nodup_nil
  | append_singleton q o ih =>
    rw [List.foldl_append, List.foldl_cons, List.foldl_nil]
    exact nodup_keys_addOrder _ o ih

theorem lookup_isSome_iff_mem_keys {l : List (String × α)} {k : String} :
    (List.lookup k l).isSome ↔ k ∈ l.map Prod.fst := by
  induction l with
  | nil => simp [List.lookup]
  | cons e rest ih =>
    obtain ⟨k₂, v⟩ := e
    by_cases hk : k = k₂
    · subst hk
      simp [List.lookup_cons]
    · have hbeq : (k == k₂) = false := by simpa using hk
      simp only [List.lookup_cons, hbeq, List.map_cons, List.mem_cons]
      rw [ih]
      simp [hk]

theorem find?_concat (p : OrderLine → Bool) (l : List OrderLine) (o : OrderLine) :
    (l ++ [o]).find? p = (l.find? p).or (if p o then some o else none) := by
  rw [List.find?_append]
  congr 1
  cases hp : p o
  · simp [List.find?_cons, hp]
  · simp [List.find?_cons, hp]

theorem filter_eq_nil_of_find?_none {p : OrderLine → Bool} {l : List OrderLine}
    (h : l.find? p = none) : l.filter p = [] :=
  List.filter_eq_nil_iff.mpr (by simpa using List.find?_eq_none.mp h)

/-- Master characterisation of the merge loop: after folding a line list into
the merged dict, looking up a key gives the first line with that key, with set
count and total quantity replaced by the sums over all lines with that key. -/
theorem lookup_mergeFold (q : List OrderLine) (k : String) :
    List.lookup k (q.foldl addOrder [])
      = match q.find? (fun x => mergeKey x = k) with
        | none => none
        | some f => some { f with
            sets := sumSets (q.filter (fun x => mergeKey x = k)),
            total := sumTotal (q.filter (fun x => mergeKey x = k)) } := by
  induction q using List.reverseRecOn with
  | nil => rfl
  | append_singleton q o ih =>
    rw [List.foldl_append, List.foldl_cons, List.foldl_nil]
    by_cases hk : k = mergeKey o
    · subst hk
      rw [lookup_addOrder_self, ih, find?_concat, List.filter_append]
      have hpo : (fun x => decide (mergeKey x = mergeKey o)) o = true := by simp
      cases hf : q.find? (fun x => mergeKey x = mergeKey o) with
      | none =>
        rw [filter_eq_nil_of_find?_none hf]
        simp only [hpo, if_true, Option.none_or, List.nil_append]
        have hfo : List.filter (fun x => mergeKey x = mergeKey o) [o] = [o] := by
          simp
        rw [hfo]
        simp [sumSets, sumTotal]
      | some f =>
        have hfo : List.filter (fun x => mergeKey x = mergeKey o) [o] = [o] := by
          simp
        rw [hfo, sumSets_append, sumTotal_append]
        simp [bump, sumSets, sumTotal, Option.or]
    · rw [lookup_addOrder_ne _ _ _ hk, ih, find?_concat, List.filter_append]
      have hpo : (fun x => decide (mergeKey x = k)) o = false := by
        simp
        exact Ne.symm hk
      have hfo : List.filter (fun x => mergeKey x = k) [o] = [] := by
        simp [List.filter_cons, hpo]
      rw [hfo, List.append_nil]
      simp [hpo]

theorem mem_mergeFold_eq {q : List OrderLine} {k : String} {e : OrderLine}
    (h : (k, e) ∈ q.foldl addOrder []) :
    mergeKey e = k ∧ List.lookup k (q.foldl addOrder []) = some e := by
  have hl := lookup_of_mem_of_nodup (nodup_keys_mergeFold q) h
  refine ⟨?_, hl⟩
  rw [lookup_mergeFold] at hl
  cases hf : q.find? (fun x => mergeKey x = k) with
  | none => rw [hf] at hl; cases hl
  | some f =>
    rw [hf] at hl
    injection hl with hl
    have hfk : mergeKey f = k := by simpa using List.find?_some hf
    rw [← hl]
    exact hfk

/-- A sample order line for concrete instances. -/
def sampleLine (w pid : String) (s t : Int) (n : Nat) : OrderLine :=
  { sku := Value.str "SKU-1", name := "名", imageData := none, skuPfx := "SKU",
    detail := "", sets := s, total := t, productId := Value.str pid,
    address := Value.str "地址", warehouse := Value.str w, seq := n,
    barcodeData := none, barcodeFilename := none }

/-- C2 counterexample: merge_orders keys lines by the string
str(warehouse) + "_" + str(productId), so two lines with different warehouses
(and different product ids) can merge when the underscore-joined keys
coincide: warehouse "A_1" with id "2" collides with warehouse "A" with id
"1_2". -/
theorem merge_orders_key_collision_cex :
    mergeKey (sampleLine "A_1" "2" 1 1 0) = mergeKey (sampleLine "A" "1_2" 1 1 1)
    ∧ (sampleLine "A_1" "2" 1 1 0).warehouse ≠ (sampleLine "A" "1_2" 1 1 1).warehouse
    ∧ (sampleLine "A_1" "2" 1 1 0).productId ≠ (sampleLine "A" "1_2" 1 1 1).productId
    ∧ (mergeOrders [sampleLine "A_1" "2" 1 1 0, sampleLine "A" "1_2" 1 1 1]).length = 1 := by
  decide

/-- C2 amended: merge combines two lines into one exactly when their composite
key strings str(warehouse) + "_" + str(productId) coincide (this agrees with
sharing both fields unless underscores or the str coercion make distinct
pairs collide); the merged line is the first line with that key in order of
original sequence index, with set count and total quantity replaced by the
sums over all lines with that key; and the output is sorted by the merged
lines original sequence indices. -/
theorem merge_orders_spec (orders : List OrderLine) :
    ((mergeOrders orders).map mergeKey).Nodup
    ∧ (∀ k, k ∈ (mergeOrders orders).map mergeKey ↔ k ∈ orders.map mergeKey)
    ∧ (∀ o ∈ mergeOrders orders, ∀ f,
        (sortByIdx orders).find? (fun x => mergeKey x = mergeKey o) = some f →
          o = { f with
            sets := sumSets (orders.filter (fun x => mergeKey x = mergeKey o)),
            total := sumTotal (orders.filter (fun x => mergeKey x = mergeKey o)) })
    ∧ (mergeOrders orders).Pairwise (fun a b => a.seq ≤ b.seq) := by
  have hperm : (mergeOrders orders).Perm
      (((sortByIdx orders).foldl addOrder []).map Prod.snd) :=
    List.perm_insertionSort _ _
  have hsortperm : (sortByIdx orders).Perm orders := List.perm_insertionSort _ _
  have hkeys : (((sortByIdx orders).foldl addOrder []).map Prod.snd).map mergeKey
      = ((sortByIdx orders).foldl addOrder []).map Prod.fst := by
    rw [List.map_map]
    refine List.map_congr_left ?_
    intro e he
    obtain ⟨k, v⟩ := e
    exact (mem_mergeFold_eq he).1
  refine ⟨?_, ?_, ?_, ?_⟩
  · rw [(hperm.map mergeKey).nodup_iff, hkeys]
    exact nodup_keys_mergeFold _
  · intro k
    rw [(hperm.map mergeKey).mem_iff, hkeys, ← lookup_isSome_iff_mem_keys,
      lookup_mergeFold]
    cases hf : (sortByIdx orders).find? (fun x => mergeKey x = k) with
    | none =>
      simp only [Option.isSome_none, Bool.false_eq_true, false_iff]
      intro hmem
      obtain ⟨x, hx, hxk⟩ := List.mem_map.mp hmem
      have hx₂ : x ∈ sortByIdx orders := hsortperm.mem_iff.mpr hx
      have := List.find?_eq_none.mp hf x hx₂
      simp [hxk] at this
    | some f =>
      simp only [Option.isSome_some, true_iff]
      have hfk : mergeKey f = k := by simpa using List.find?_some hf
      exact List.mem_map.mpr
        ⟨f, hsortperm.mem_iff.mp (List.mem_of_find?_eq_some hf), hfk⟩
  · intro o ho f hf
    have hov : o ∈ ((sortByIdx orders).foldl addOrder []).map Prod.snd :=
      hperm.mem_iff.mp ho
    obtain ⟨⟨k, e⟩, hmem, hsnd⟩ := List.mem_map.mp hov
    cases hsnd
    obtain ⟨hkey, hl⟩ := mem_mergeFold_eq hmem
    subst hkey
    rw [lookup_mergeFold, hf] at hl
    injection hl with hl
    have hfilperm := hsortperm.filter (fun x => mergeKey x = mergeKey e)
    rw [← sumSets_perm hfilperm, ← sumTotal_perm hfilperm]
    exact hl.symm
  · haveI : IsTotal OrderLine (fun a b => a.seq ≤ b.seq) :=
      ⟨fun a b => Nat.le_total a.seq b.seq⟩
    haveI : IsTrans OrderLine (fun a b => a.seq ≤ b.seq) :=
      ⟨fun a b c hab hbc => Nat.le_trans hab hbc⟩
    exact List.sorted_insertionSort _ _

/-- C2 witness: merging three concrete lines (two of them sharing warehouse W
and product id 1, interleaved with another line) yields the first W line with
sets and totals summed; the equality is the specification theorem applied at
that concrete input. -/
theorem merge_orders_spec_witness :
    ({ sampleLine "W" "1" 2 4 0 with sets := 5, total := 10 } : OrderLine)
      = { sampleLine "W" "1" 2 4 0 with
          sets := sumSets
            (([sampleLine "W" "1" 2 4 0, sampleLine "V" "2" 1 1 1,
               sampleLine "W" "1" 3 6 2]).filter
              (fun x => mergeKey x
                = mergeKey ({ sampleLine "W" "1" 2 4 0 with sets := 5, total := 10 } : OrderLine))),
          total := sumTotal
            (([sampleLine "W" "1" 2 4 0, sampleLine "V" "2" 1 1 1,
               sampleLine "W" "1" 3 6 2]).filter
              (fun x => mergeKey x
                = mergeKey ({ sampleLine "W" "1" 2 4 0 with sets := 5, total := 10 } : OrderLine))) } :=
  (merge_orders_spec
    [sampleLine "W" "1" 2 4 0, sampleLine "V" "2" 1 1 1, sampleLine "W" "1" 3 6 2]).2.2.1
    ({ sampleLine "W" "1" 2 4 0 with sets := 5, total := 10 })
    (by decide)
    (sampleLine "W" "1" 2 4 0)
    (by decide)

/-! ### C4: warehouse grouping -/

theorem minSeq_concat (l : List Nat) (y : Nat) (h : l ≠ []) :
    minSeq (l ++ [y]) = min (minSeq l) y := by
  cases l with
  | nil => cases h rfl
  | cons x xs => simp [minSeq, List.foldl_append]

theorem wgFind_gbwAdd_self (gs : List WarehouseGroup) (o : OrderLine) :
    (gbwAdd gs o).find? (fun g => g.warehouseName = o.warehouse)
      = some (match gs.find? (fun g => g.warehouseName = o.warehouse) with
              | some g =>
                { g with orders := g.orders ++ [o], minOrder := min g.minOrder o.seq }
              | none => ⟨o.warehouse, o.address, [o], o.seq⟩) := by
  induction gs with
  | nil => simp [gbwAdd, List.find?_cons]
  | cons g rest ih =>
    rw [gbwAdd]
    by_cases hg : g.warehouseName = o.warehouse
    · rw [if_pos hg]
      simp [List.find?_cons, hg]
    · rw [if_neg hg]
      simp only [List.find?_cons]
      have hpg : decide (g.warehouseName = o.warehouse) = false := by simp [hg]
      rw [hpg]
      exact ih

theorem wgFind_gbwAdd_ne (gs : List WarehouseGroup) (o : OrderLine) (w : Value)
    (h : w ≠ o.warehouse) :
    (gbwAdd gs o).find? (fun g => g.warehouseName = w)
      = gs.find? (fun g => g.warehouseName = w) := by
  induction gs with
  | nil =>
    simp [gbwAdd, List.find?_cons, Ne.symm h]
  | cons g rest ih =>
    rw [gbwAdd]
    by_cases hg : g.warehouseName = o.warehouse
    · rw [if_pos hg]
      simp [List.find?_cons, hg, Ne.symm h]
    · rw [if_neg hg]
      simp only [List.find?_cons]
      cases hpg : decide (g.warehouseName = w) with
      | true => rfl
      | false => exact ih

theorem names_gbwAdd (gs : List WarehouseGroup) (o : OrderLine) :
    (gbwAdd gs o).map (fun g => g.warehouseName)
      = if o.warehouse ∈ gs.map (fun g => g.warehouseName)
        then gs.map (fun g => g.warehouseName)
        else gs.map (fun g => g.warehouseName) ++ [o.warehouse] := by
  induction gs with
  | nil => simp [gbwAdd]
  | cons g rest ih =>
    rw [gbwAdd]
    by_cases hg : g.warehouseName = o.warehouse
    · rw [if_pos hg]
      simp [hg]
    · rw [if_neg hg]
      simp only [List.map_cons, ih]
      by_cases hmem : o.warehouse ∈ rest.map (fun g => g.warehouseName)
      · simp [hmem, hg, Ne.symm hg]
      · simp [hmem, hg, Ne.symm hg]

theorem nodup_names_gbwAdd (gs : List WarehouseGroup) (o : OrderLine)
    (h : (gs.map (fun g => g.warehouseName)).Nodup) :
    ((gbwAdd gs o).map (fun g => g.warehouseName)).Nodup := by
  rw [names_gbwAdd]
  by_cases hmem : o.warehouse ∈ gs.map (fun g => g.warehouseName)
  · simpa [hmem] using h
  · simp only [if_neg hmem]
    rw [List.nodup_append]
    exact ⟨h, List.nodup_singleton _, by simpa using hmem⟩

theorem nodup_names_gbwFold (q : List OrderLine) :
    ((q.foldl gbwAdd []).map (fun g => g.warehouseName)).Nodup := by
  induction q using List.reverseRecOn with
  | nil => exact List.nodup_nil
  | append_singleton q o ih =>
    rw [List.foldl_append, List.foldl_cons, List.foldl_nil]
    exact nodup_names_gbwAdd _ o ih

theorem wgFind_isSome_iff {gs : List WarehouseGroup} {w : Value} :
    (gs.find? (fun g => g.warehouseName = w)).isSome
      ↔ w ∈ gs.map (fun g => g.warehouseName) := by
  rw [List.find?_isSome]
  simp [eq_comm]

theorem find?_concat_line (p : OrderLine → Bool) (l : List OrderLine)
    (o : OrderLine) :
    (l ++ [o]).find? p = (l.find? p).or (if p o then some o else none) :=
  find?_concat p l o

/-- Master characterisation of the grouping loop: after folding a line list
into the group list, the group found for a warehouse consists of the name and
address of the first line with that warehouse, all lines with that warehouse
in encounter order, and the minimum of their sequence indices. -/
theorem wgFind_fold (q : List OrderLine) (w : Value) :
    (q.foldl gbwAdd []).find? (fun g => g.warehouseName = w)
      = match q.find? (fun o => o.warehouse = w) with
        | none => none
        | some f => some ⟨f.warehouse, f.address,
            q.filter (fun o => o.warehouse = w),
            minSeq ((q.filter (fun o => o.warehouse = w)).map (fun o => o.seq))⟩ := by
  induction q using List.reverseRecOn with
  | nil => rfl
  | append_singleton q o ih =>
    rw [List.foldl_append, List.foldl_cons, List.foldl_nil]
    by_cases hw : w = o.warehouse
    · subst hw
      rw [wgFind_gbwAdd_self, ih, find?_concat, List.filter_append]
      have hpo : (fun x : OrderLine => decide (x.warehouse = o.warehouse)) o
          = true := by simp
      have hfo : List.filter (fun x : OrderLine => x.warehouse = o.warehouse) [o]
          = [o] := by simp
      cases hf : q.find? (fun x : OrderLine => x.warehouse = o.warehouse) with
      | none =>
        rw [filter_eq_nil_of_find?_none hf, hfo]
        simp [minSeq]
      | some f =>
        rw [hfo]
        have hne : (List.filter (fun x : OrderLine => x.warehouse = o.warehouse) q)
            ≠ [] := by
          refine List.ne_nil_of_mem (a := f) ?_
          rw [List.mem_filter]
          exact ⟨List.mem_of_find?_eq_some hf, by simpa using List.find?_some hf⟩
        have hmap : ((List.filter (fun x : OrderLine => x.warehouse = o.warehouse) q)
            ++ [o]).map (fun o => o.seq)
            = (List.filter (fun x : OrderLine => x.warehouse = o.warehouse) q).map
                (fun o => o.seq) ++ [o.seq] := by simp
        have hmne : ((List.filter (fun x : OrderLine => x.warehouse = o.warehouse) q).map
            (fun o => o.seq)) ≠ [] := by simpa using hne
        rw [hmap, minSeq_concat _ _ hmne]
        simp [Option.or]
    · rw [wgFind_gbwAdd_ne _ _ _ hw, ih, find?_concat, List.filter_append]
      have hpo : (fun x : OrderLine => decide (x.warehouse = w)) o = false := by
        simp
        exact Ne.symm hw
      have hfo : List.filter (fun x : OrderLine => x.warehouse = w) [o] = [] := by
        simp [List.filter_cons, hpo]
      rw [hfo, List.append_nil]
      simp [hpo]

theorem wgFind_of_mem_of_nodup {gs : List WarehouseGroup} {g : WarehouseGroup}
    (hnd : (gs.map (fun g => g.warehouseName)).Nodup) (hmem : g ∈ gs) :
    gs.find? (fun g₂ => g₂.warehouseName = g.warehouseName) = some g := by
  induction gs with
  | nil => cases hmem
  | cons g₂ rest ih =>
    rw [List.map_cons, List.nodup_cons] at hnd
    rcases List.mem_cons.mp hmem with rfl | hmem
    · simp [List.find?_cons]
    · have hne : g₂.warehouseName ≠ g.warehouseName := by
        intro he
        exact hnd.1 (he ▸ List.mem_map.mpr ⟨g, hmem, rfl⟩)
      rw [List.find?_cons]
      have hpg : decide (g₂.warehouseName = g.warehouseName) = false := by
        simp [hne]
      rw [hpg]
      exact ih hnd.2 hmem

/-- C4: group_by_warehouse buckets lines by warehouse name (each group holds
exactly the input lines with its warehouse, in encounter order), takes the
name and address snapshot from the first-encountered line of the warehouse,
sets the group minimum to the least sequence index among its members, and
emits the groups in nondecreasing order of that minimum — regardless of
warehouse name or interleaving. -/
theorem group_by_warehouse_spec (orders : List OrderLine) :
    ((groupByWarehouse orders).map (fun g => g.warehouseName)).Nodup
    ∧ (∀ w, w ∈ (groupByWarehouse orders).map (fun g => g.warehouseName)
        ↔ w ∈ orders.map (fun o => o.warehouse))
    ∧ (∀ g ∈ groupByWarehouse orders,
        g.orders = orders.filter (fun o => o.warehouse = g.warehouseName)
        ∧ g.minOrder = minSeq (g.orders.map (fun o => o.seq))
        ∧ (∀ f, orders.find? (fun o => o.warehouse = g.warehouseName) = some f →
            g.warehouseName = f.warehouse ∧ g.warehouseAddress = f.address))
    ∧ (groupByWarehouse orders).Pairwise (fun a b => a.minOrder ≤ b.minOrder) := by
  have hperm : (groupByWarehouse orders).Perm (orders.foldl gbwAdd []) :=
    List.perm_insertionSort _ _
  refine ⟨?_, ?_, ?_, ?_⟩
  · rw [(hperm.map (fun g => g.warehouseName)).nodup_iff]
    exact nodup_names_gbwFold orders
  · intro w
    rw [(hperm.map (fun g => g.warehouseName)).mem_iff, ← wgFind_isSome_iff,
      wgFind_fold]
    cases hf : orders.find? (fun o => o.warehouse = w) with
    | none =>
      simp only [Option.isSome_none, Bool.false_eq_true, false_iff]
      intro hmem
      obtain ⟨x, hx, hxw⟩ := List.mem_map.mp hmem
      have := List.find?_eq_none.mp hf x hx
      simp [hxw] at this
    | some f =>
      simp only [Option.isSome_some, true_iff]
      have hfw : f.warehouse = w := by simpa using List.find?_some hf
      exact List.mem_map.mpr ⟨f, List.mem_of_find?_eq_some hf, hfw⟩
  · intro g hg
    have hgf : g ∈ orders.foldl gbwAdd [] := hperm.mem_iff.mp hg
    have hfind := wgFind_of_mem_of_nodup (nodup_names_gbwFold orders) hgf
    rw [wgFind_fold] at hfind
    cases hf : orders.find? (fun o => o.warehouse = g.warehouseName) with
    | none => rw [hf] at hfind; cases hfind
    | some f =>
      rw [hf] at hfind
      injection hfind with hfind
      have horders := congrArg WarehouseGroup.orders hfind
      have hmin := congrArg WarehouseGroup.minOrder hfind
      have hname := congrArg WarehouseGroup.warehouseName hfind
      have haddr := congrArg WarehouseGroup.warehouseAddress hfind
      refine ⟨horders.symm, ?_, ?_⟩
      · rw [← horders]
        exact hmin.symm
      · intro f₂ hf₂
        injection hf₂ with hf₂
        subst hf₂
        exact ⟨hname.symm, haddr.symm⟩
  · haveI : IsTotal WarehouseGroup (fun a b => a.minOrder ≤ b.minOrder) :=
      ⟨fun a b => Nat.le_total a.minOrder b.minOrder⟩
    haveI : IsTrans WarehouseGroup (fun a b => a.minOrder ≤ b.minOrder) :=
      ⟨fun a b c hab hbc => Nat.le_trans hab hbc⟩
    exact List.sorted_insertionSort _ _

/-- C4 witness: four interleaved lines over two warehouses; the group of
warehouse B (first seen second, but carrying the least index among no
member... rather: groups come out ordered by member minima), instantiated
from the specification theorem. -/
theorem group_by_warehouse_spec_witness :
    (groupByWarehouse [sampleLine "A" "1" 1 1 5, sampleLine "B" "2" 1 1 1,
        sampleLine "A" "3" 1 1 2, sampleLine "B" "4" 1 1 9]).Pairwise
      (fun a b => a.minOrder ≤ b.minOrder)
    ∧ (⟨Value.str "A", Value.str "地址",
        [sampleLine "A" "1" 1 1 5, sampleLine "A" "3" 1 1 2], 2⟩ : WarehouseGroup).orders
      = ([sampleLine "A" "1" 1 1 5, sampleLine "B" "2" 1 1 1,
          sampleLine "A" "3" 1 1 2, sampleLine "B" "4" 1 1 9]).filter
          (fun o => o.warehouse
            = (⟨Value.str "A", Value.str "地址",
                [sampleLine "A" "1" 1 1 5, sampleLine "A" "3" 1 1 2], 2⟩ : WarehouseGroup).warehouseName) := by
  constructor
  · exact (group_by_warehouse_spec
      [sampleLine "A" "1" 1 1 5, sampleLine "B" "2" 1 1 1,
       sampleLine "A" "3" 1 1 2, sampleLine "B" "4" 1 1 9]).2.2.2
  · exact ((group_by_warehouse_spec
      [sampleLine "A" "1" 1 1 5, sampleLine "B" "2" 1 1 1,
       sampleLine "A" "3" 1 1 2, sampleLine "B" "4" 1 1 9]).2.2.1
      (⟨Value.str "A", Value.str "地址",
        [sampleLine "A" "1" 1 1 5, sampleLine "A" "3" 1 1 2], 2⟩ : WarehouseGroup)
      (by decide)).1

/-! ### C7: the barcode column and the emitted barcode files -/

theorem fillBarcodeRows_eq (rows : List OrderLine) :
    fillBarcodeRows rows = (rows.map barcodeCell, rows.filterMap barcodeEmit) := by
  induction rows with
  | nil => rfl
  | cons o rest ih =>
    rw [fillBarcodeRows, ih]
    cases he : barcodeEmit o with
    | some e => simp [List.filterMap_cons, he]
    | none => simp [List.filterMap_cons, he]

/-- C7: in the assembled document, each data row whose line has a resolved
barcode payload (nonempty bytes d, nonempty original filename f) carries the
renamed label str(setCount) ++ "--" ++ f in the barcode column, and the pair
(label, d) appears in the returned barcode file list; a row without a
resolved barcode carries the literal no-barcode marker and contributes
nothing to the list (the list is exactly the row-ordered filterMap of the
emitting rows). -/
theorem create_excel_barcodes_spec (orders : List OrderLine) :
    (createExcelBarcodes orders).1 = (excelRows orders).map barcodeCell
    ∧ (createExcelBarcodes orders).2 = (excelRows orders).filterMap barcodeEmit
    ∧ (∀ o ∈ excelRows orders, ∀ d f,
        o.barcodeData = some d → d ≠ [] → o.barcodeFilename = some f → f ≠ "" →
          barcodeCell o = intStr o.sets ++ "--" ++ f
          ∧ (intStr o.sets ++ "--" ++ f, d) ∈ (createExcelBarcodes orders).2)
    ∧ (∀ o ∈ excelRows orders, barcodeTruthy o = false → barcodeCell o = "无条码") := by
  have he := fillBarcodeRows_eq (excelRows orders)
  refine ⟨?_, ?_, ?_, ?_⟩
  · rw [createExcelBarcodes, he]
  · rw [createExcelBarcodes, he]
  · intro o ho d f hd hdne hf hfne
    have hcond : (!d.isEmpty && !(decide (f = ""))) = true := by
      simp [List.isEmpty_iff, hdne, hfne]
    have hcell : barcodeCell o = intStr o.sets ++ "--" ++ f := by
      rw [barcodeCell, hd, hf]
      simp only [bne_iff_ne, ne_eq]
      rw [if_pos (by simpa using hcond)]
      rfl
    refine ⟨hcell, ?_⟩
    rw [createExcelBarcodes, he]
    refine List.mem_filterMap.mpr ⟨o, ho, ?_⟩
    rw [barcodeEmit, hd, hf]
    simp only [bne_iff_ne, ne_eq]
    rw [if_pos (by simpa using hcond)]
    rfl
  · intro o ho htr
    cases hbd : o.barcodeData with
    | none => rw [barcodeCell, hbd]
    | some d =>
      cases hbf : o.barcodeFilename with
      | none => rw [barcodeCell, hbd, hbf]
      | some f =>
        rw [barcodeTruthy, hbd, hbf] at htr
        have htr₂ : (!d.isEmpty && decide (f ≠ "")) = false := by simpa using htr
        rw [barcodeCell, hbd, hbf]
        show (if (!d.isEmpty && decide (f ≠ "")) = true then barcodeLabel o f
          else "无条码") = "无条码"
        rw [htr₂]
        simp

/-- A sample order line carrying a resolved barcode payload. -/
def sampleBarcodeLine : OrderLine :=
  { sampleLine "W" "9" 3 3 0 with
    barcodeData := some [1, 2], barcodeFilename := some "PID123.pdf" }

/-- C7 witness: a line with set count 3 and filename PID123.pdf is rendered
as 3--PID123.pdf in the barcode cell and the renamed pair appears in the
emitted list; a line without a barcode renders the no-barcode marker. -/
theorem create_excel_barcodes_spec_witness :
    barcodeCell sampleBarcodeLine
        = intStr sampleBarcodeLine.sets ++ "--" ++ "PID123.pdf"
    ∧ (intStr sampleBarcodeLine.sets ++ "--" ++ "PID123.pdf", [1, 2])
        ∈ (createExcelBarcodes [sampleBarcodeLine, sampleLine "V" "2" 1 1 1]).2
    ∧ barcodeCell (sampleLine "V" "2" 1 1 1) = "无条码" := by
  have h := create_excel_barcodes_spec [sampleBarcodeLine, sampleLine "V" "2" 1 1 1]
  have h₁ := h.2.2.1 sampleBarcodeLine (by decide) [1, 2] "PID123.pdf"
    (by decide) (by decide) (by decide) (by decide)
  exact ⟨h₁.1, h₁.2, h.2.2.2 (sampleLine "V" "2" 1 1 1) (by decide) (by decide)⟩

end ShippingOrder
